import Mathlib

/-!
# Verification of the carte-minecraft server core (src/server.js)

Shallow embedding of the three core components of `src/server.js`:

* the stats merge performed by `app.post('/api/import')` (lines 121-160),
* the capacity-bounded history append `appendPingSample` (lines 162-175),
* the `setInterval`-driven ping scheduler `startSchedulerIfConfigured`
  (lines 177-200).

JavaScript objects produced by `JSON.parse` are modelled by the inductive
type `JValue`; an object's own enumerable properties are an ordered
association list `List (String × JValue)` with unique keys (JSON.parse
never yields duplicate keys).  JavaScript timestamps (`new Date()`) are
opaque `Nat` parameters.
-/

set_option autoImplicit false

namespace Carte

/-- A JavaScript value as produced by `JSON.parse`: null, boolean, number,
string, array, or object (ordered field list). Numbers are modelled as `Int`,
which suffices for every claim considered here. -/
inductive JValue where
  | jnull
  | jbool (b : Bool)
  | jnum (n : Int)
  | jstr (s : String)
  | jarr (elems : List JValue)
  | jobj (fields : List (String × JValue))

/-- Property read `l[k]` on an ordered property list: the value at key `k`
(JS objects hold each key once; we return the first occurrence). -/
def lookupKey {α : Type} (k : String) : List (String × α) → Option α
  | [] => none
  | (k', v) :: t => if k' = k then some v else lookupKey k t

/-- Membership test `k in l`: whether the property list has key `k`. -/
def hasKey {α : Type} (k : String) (l : List (String × α)) : Bool :=
  (lookupKey k l).isSome

/-- Property assignment `obj[k] = v` on a property list: an existing key
keeps its position and gets the new value; a fresh key is appended (JS
property-creation order). -/
def setKey {α : Type} (l : List (String × α)) (k : String) (v : α) : List (String × α) :=
  match l with
  | [] => [(k, v)]
  | (k', w) :: t => if k' = k then (k, v) :: t else (k', w) :: setKey t k v

/-- JS truthiness of a value (`!x` is the negation of this). -/
def jsTruthy : JValue → Bool
  | .jnull => false
  | .jbool b => b
  | .jnum n => n != 0
  | .jstr s => s != ""
  | .jarr _ => true
  | .jobj _ => true

/-- JS `typeof x === 'object'`: true for objects, arrays and `null`. -/
def jsTypeofObject : JValue → Bool
  | .jnull => true
  | .jarr _ => true
  | .jobj _ => true
  | _ => false

/-- The own enumerable properties contributed by `{...x}` (object spread):
an object's fields; an array's elements under their stringified indices; a
string's characters under their indices; nothing for primitives/null. -/
def jsSpreadProps : JValue → List (String × JValue)
  | .jobj fields => fields
  | .jarr elems => elems.enum.map (fun p => (toString p.1, p.2))
  | .jstr s => s.toList.enum.map (fun p => (toString p.1, JValue.jstr (String.singleton p.2)))
  | _ => []

/-- Evaluation of `Object.entries(x)` for the values reachable here: same property list as
the spread. (For objects, arrays and strings these coincide.) -/
def jsEntries (v : JValue) : List (String × JValue) :=
  jsSpreadProps v

/-- The object literal `{ ...e, ...s }` (src/server.js:152): `e`'s
properties in order, each overridden by `s`'s value when `s` also has the
key, followed by the properties of `s` whose keys are absent from `e`. -/
def spreadMerge (e s : List (String × JValue)) : List (String × JValue) :=
  e.map (fun p => (p.1, (lookupKey p.1 s).getD p.2)) ++
    s.filter (fun p => ! hasKey p.1 e)

/-- The expression `merged.players[username] || {}` (src/server.js:152): the existing
record's spread properties, or nothing when the property is absent or
falsy. -/
def jsOrProps (o : Option JValue) : List (String × JValue) :=
  match o with
  | some v => if jsTruthy v then jsSpreadProps v else []
  | none => []

/-- One iteration of the merge loop (src/server.js:151-153):
`merged.players[username] = { ...(merged.players[username] || {}), ...stats }`. -/
def mergeStep (acc : List (String × JValue)) (entry : String × JValue) :
    List (String × JValue) :=
  setKey acc entry.1
    (JValue.jobj (spreadMerge (jsOrProps (lookupKey entry.1 acc)) (jsSpreadProps entry.2)))

/-- The whole merge loop (src/server.js:150-153): fold the incoming entries
over a copy of the current players map. -/
def mergePlayers (cur incoming : List (String × JValue)) : List (String × JValue) :=
  incoming.foldl mergeStep cur

/-! ## The import pipeline (src/server.js:121-160) -/

/-- Property read `incoming.players` (src/server.js:142): only an object
can carry a `players` own-property; arrays and primitives yield
`undefined` (`none`). (`null.players` would throw, but the `!incoming`
guard at line 142 short-circuits before the access.) -/
def getPlayers : JValue → Option JValue
  | .jobj fields => lookupKey "players" fields
  | _ => none

/-- The schema check of src/server.js:142, negated so that `true` means
"proceed with the merge": the parsed value is truthy and of
`typeof 'object'`, and its `players` property exists, is truthy and is of
`typeof 'object'`. -/
def schemaOk (incoming : JValue) : Bool :=
  jsTruthy incoming && jsTypeofObject incoming &&
    (match getPlayers incoming with
     | some p => jsTruthy p && jsTypeofObject p
     | none => false)

/-- The persisted stats aggregate `{ players, updatedAt }` (data/stats.json). -/
structure Aggregate where
  players : List (String × JValue)
  updatedAt : Nat

/-- The schema-error message of src/server.js:143. -/
def schemaMsg : String :=
  "Invalid schema: expected root \x7b players: \x7b ... \x7d \x7d"

/-- The responses the import handler can produce for a parsed-or-not
payload: 400 Invalid JSON (line 138), 400 Invalid schema (line 143), or
the success summary `{ ok, updatedAt, totalPlayers }` (line 156). -/
inductive ImportResp where
  | parseError
  | schemaError (error : String)
  | ok (updatedAt : Nat) (totalPlayers : Nat)

/-- The core of the import handler (src/server.js:134-156) as a
state-passing function on the persisted aggregate. `parsed` is the outcome
of `JSON.parse(content)` (`none` = the parse threw, caught at line 137).
On parse failure the handler returns before the schema check runs; on
schema failure it returns before the stats file is read; otherwise it
reads the current aggregate, merges, stamps `updatedAt := now`, writes the
result back and reports `totalPlayers = Object.keys(merged.players).length`
together with the new `updatedAt`. -/
def importStep (parsed : Option JValue) (st : Aggregate) (now : Nat) :
    ImportResp × Aggregate :=
  match parsed with
  | none => (.parseError, st)
  | some incoming =>
      if schemaOk incoming then
        let merged := mergePlayers st.players (jsEntries ((getPlayers incoming).getD .jnull))
        (.ok now merged.length, { players := merged, updatedAt := now })
      else (.schemaError schemaMsg, st)

/-! ## HistoryStore and Scheduler (src/server.js:162-200) -/

/-- Retention cap on the ping history (src/server.js:167-168). -/
def CAP : Nat := 15000

/-- A persisted ping sample, as built by the scheduler tick
(src/server.js:186-191 on success, 194 on failure). The failure sample
carries only the timestamp and `online: false`, so the two player-count
fields are optional (`none` = property absent from the JS object). The
source field `at` is a Lean keyword and is rendered `takenAt`. -/
structure Sample where
  takenAt : Nat
  online : Bool
  playersOnline : Option Nat := none
  playersMax : Option Nat := none
deriving DecidableEq

/-- The `players` part of a minecraft-server-util status reply, as read by
the scheduler (`result?.players?.online ?? 0`, `result?.players?.max ?? 0`);
both counts may be absent. -/
structure PlayersInfo where
  online : Option Nat := none
  max : Option Nat := none

/-- A successful status reply; the `players` object itself may be absent. -/
structure ProbeResult where
  players : Option PlayersInfo := none

/-- A probe failure: timeout, connection error or protocol error. The
scheduler's `catch` treats every failure alike. -/
inductive ProbeErr where
  | timeout
  | connError
  | protocolError

/-- The in-memory update of `appendPingSample` (src/server.js:166-170):
push the sample, and when the length exceeds 15000 keep only the last
15000 (`data.samples.slice(-15000)`). -/
def appendSample (samples : List Sample) (s : Sample) : List Sample :=
  let pushed := samples ++ [s]
  if pushed.length > CAP then pushed.drop (pushed.length - CAP) else pushed

/-- A sequence of appends starting from the empty log written by
`ensureDataFiles` (`{ samples: [] }`). -/
def appendAll (ss : List Sample) : List Sample :=
  ss.foldl appendSample []

/-- The sample a scheduler tick builds (src/server.js:185-194): on success
`{ at: now, online: true, playersOnline: result?.players?.online ?? 0,
playersMax: result?.players?.max ?? 0 }`; on any probe failure
`{ at: now, online: false }`. -/
def buildSample (now : Nat) (outcome : Except ProbeErr ProbeResult) : Sample :=
  match outcome with
  | .ok r =>
      { takenAt := now, online := true,
        playersOnline := some ((r.players.bind PlayersInfo.online).getD 0),
        playersMax := some ((r.players.bind PlayersInfo.max).getD 0) }
  | .error _ => { takenAt := now, online := false }

/-- One tick of the setInterval callback (src/server.js:183-196): turn the
probe outcome into a sample and hand it to `appendPingSample`. The
function is total: the `try`/`catch` swallows the failure, so a tick never
raises. -/
def tickOnce (log : List Sample) (tick : Nat × Except ProbeErr ProbeResult) :
    List Sample :=
  appendSample log (buildSample tick.1 tick.2)

/-- A scheduler run over a list of ticks (each tick: its timestamp and its
probe outcome), starting from the empty history. -/
def runScheduler (ticks : List (Nat × Except ProbeErr ProbeResult)) : List Sample :=
  ticks.foldl tickOnce []

/-- The config file `{ host, port, pingIntervalSec }` (data/config.json)
as the scheduler reads it (src/server.js:179). A negative interval is
representable, hence `Int`. -/
structure Config where
  host : String
  port : Nat
  pingIntervalSec : Int

/-- How `startSchedulerIfConfigured` can end: the config read/parse threw
(caught at src/server.js:197-199, logged "Scheduler not started"), the
feature is disabled by the interval guard (line 180, a plain `return`),
or `setInterval` was armed with the given period in milliseconds. -/
inductive SchedStart where
  | failed
  | disabled
  | running (intervalMs : Int)
deriving DecidableEq

/-- Start logic of `startSchedulerIfConfigured` (src/server.js:177-200). `cfgRead` is the
outcome of reading and parsing config.json (`none` = it threw). Line 180:
`if (!cfg.pingIntervalSec || cfg.pingIntervalSec <= 0) return;` — for an
integer interval, falsy means zero. Otherwise line 181/183 arm
`setInterval` with `pingIntervalSec * 1000` milliseconds. -/
def startSchedulerIfConfigured (cfgRead : Option Config) : SchedStart :=
  match cfgRead with
  | none => .failed
  | some cfg =>
      if cfg.pingIntervalSec = 0 ∨ cfg.pingIntervalSec ≤ 0 then .disabled
      else .running (cfg.pingIntervalSec * 1000)

/-- The samples appended over the lifetime of a run: only a running
scheduler ever ticks; a disabled or failed start appends nothing. -/
def schedulerSamples (cfgRead : Option Config)
    (ticks : List (Nat × Except ProbeErr ProbeResult)) : List Sample :=
  match startSchedulerIfConfigured cfgRead with
  | .running _ => runScheduler ticks
  | _ => []

/-! ## Tick timing (src/server.js:183-196)

Node's `setInterval` invokes its callback every `intervalMs` milliseconds
and does not await the promise the previous invocation returned, so the
callback of tick `i` (zero-based) starts at `(i+1)*intervalMs` after
scheduler start — whether or not an earlier tick's asynchronous
probe-then-append work is still pending. -/

/-- The fixed tick grid together with how long each tick's
probe-then-append sequence takes (the probe alone may take up to its
5000 ms timeout). -/
structure TickTiming where
  intervalMs : Nat
  dur : Nat → Nat

/-- When tick `i`'s callback is invoked: `(i+1)*intervalMs` after start
(no immediate tick at t = 0). -/
def tickStart (tt : TickTiming) (i : Nat) : Nat := (i + 1) * tt.intervalMs

/-- Tick `i`'s probe-then-append sequence is executing at time `t`. -/
def inFlight (tt : TickTiming) (i t : Nat) : Prop :=
  tickStart tt i ≤ t ∧ t < tickStart tt i + tt.dur i

/-! ## The history write (src/server.js:171) -/

/-- Outcome of the underlying `fsp.writeFile`: success, or failure after
`chars` characters of the new content reached the disk. `writeFile` opens
with flag `w` (truncate, then write); src/server.js has no
write-to-temp-then-rename step. -/
inductive WriteOutcome where
  | ok
  | failAfter (chars : Nat)

/-- Simplified `JSON.stringify` of a sample (field order as the object is
built at src/server.js:186-191 resp. 194; pretty-printing whitespace is
immaterial here). Absent optional fields are simply not emitted, exactly
as `JSON.stringify` omits absent properties. -/
def serializeSample (s : Sample) : String :=
  "\x7b\"at\":" ++ toString s.takenAt ++
    ",\"online\":" ++ (if s.online then "true" else "false") ++
    (match s.playersOnline with
     | some n => ",\"playersOnline\":" ++ toString n
     | none => "") ++
    (match s.playersMax with
     | some n => ",\"playersMax\":" ++ toString n
     | none => "") ++
    "\x7d"

/-- Simplified `JSON.stringify` of the whole history file
`{ samples: [...] }`. -/
def serializeLog (l : List Sample) : String :=
  "\x7b\"samples\":[" ++ String.intercalate "," (l.map serializeSample) ++ "]\x7d"

/-- Model of `fsp.writeFile(path, content)`: on success the file holds the new
content; on a failure after `k` characters it holds the first `k`
characters of the new content (the old content was already truncated away
by the open with flag `w`). Returns the resulting file content and whether
the write succeeded. -/
def writeFileModel (newContent : String) (w : WriteOutcome) : String × Bool :=
  match w with
  | .ok => (newContent, true)
  | .failAfter k => (⟨newContent.data.take k⟩, false)

/-- The function `appendPingSample` (src/server.js:162-175) together with the on-disk
state of ping-history.json, whose prior content is `serializeLog old`: the
capped append is computed in memory, then the whole file is rewritten with
`fsp.writeFile`; any error is caught at line 172 and only logged
(`console.error`), so the call always returns. The `Bool` records whether
the write succeeded. -/
def appendPingSampleFS (old : List Sample) (s : Sample) (w : WriteOutcome) :
    String × Bool :=
  writeFileModel (serializeLog (appendSample old s)) w

/-! ## Association-list lemmas -/

theorem lookupKey_append {α : Type} (k : String) (a b : List (String × α)) :
    lookupKey k (a ++ b) = (lookupKey k a <|> lookupKey k b) := by
  induction a with
  | nil => simp [lookupKey]
  | cons p t ih =>
    obtain ⟨k', v⟩ := p
    by_cases h : k' = k <;> simp [lookupKey, h, ih]

theorem lookupKey_spread_left (f : String) (e s : List (String × JValue)) :
    lookupKey f (e.map (fun p => (p.1, (lookupKey p.1 s).getD p.2))) =
      (lookupKey f e).map (fun v => (lookupKey f s).getD v) := by
  induction e with
  | nil => rfl
  | cons p t ih =>
    obtain ⟨k', v⟩ := p
    by_cases h : k' = f <;> simp [lookupKey, h, ih]

theorem lookupKey_spread_right (f : String) (e s : List (String × JValue)) :
    lookupKey f (s.filter (fun p => ! hasKey p.1 e)) =
      if hasKey f e then none else lookupKey f s := by
  induction s with
  | nil => simp [lookupKey]
  | cons p t ih =>
    obtain ⟨k', v⟩ := p
    by_cases h : k' = f
    · subst h
      by_cases hk : hasKey k' e
      · simp [List.filter_cons, hk, ih]
      · simp [List.filter_cons, hk, lookupKey]
    · by_cases hk : hasKey k' e
      · simp [List.filter_cons, hk, lookupKey, h, ih]
      · simp [List.filter_cons, hk, lookupKey, h, ih]

/-- Per-field characterisation of `{ ...e, ...s }`: the incoming (`s`) value
wins on every key `s` has; all other keys keep `e`'s value. -/
theorem lookupKey_spreadMerge (f : String) (e s : List (String × JValue)) :
    lookupKey f (spreadMerge e s) = (lookupKey f s <|> lookupKey f e) := by
  unfold spreadMerge
  rw [lookupKey_append, lookupKey_spread_left, lookupKey_spread_right]
  unfold hasKey
  cases he : lookupKey f e <;> cases hs : lookupKey f s <;> simp [he, hs]

@[simp] theorem lookupKey_setKey_self {α : Type} (l : List (String × α)) (k : String) (v : α) :
    lookupKey k (setKey l k v) = some v := by
  induction l with
  | nil => simp [setKey, lookupKey]
  | cons p t ih =>
    obtain ⟨k', w⟩ := p
    by_cases h : k' = k <;> simp [setKey, lookupKey, h, ih]

theorem lookupKey_setKey_ne {α : Type} (l : List (String × α)) (k k' : String) (v : α)
    (h : k' ≠ k) : lookupKey k' (setKey l k v) = lookupKey k' l := by
  induction l with
  | nil => simp [setKey, lookupKey, Ne.symm h]
  | cons p t ih =>
    obtain ⟨k₀, w⟩ := p
    by_cases h0 : k₀ = k
    · subst h0
      simp [setKey, lookupKey, Ne.symm h]
    · simp [setKey, lookupKey, h0, ih]

/-- Assigning a property the value it already holds leaves the object
unchanged. -/
theorem setKey_eq_of_lookup {α : Type} (l : List (String × α)) (k : String) (v : α)
    (h : lookupKey k l = some v) : setKey l k v = l := by
  induction l with
  | nil => simp [lookupKey] at h
  | cons p t ih =>
    obtain ⟨k', w⟩ := p
    by_cases h0 : k' = k
    · subst h0
      simp [lookupKey] at h
      simp [setKey, h]
    · simp [lookupKey, h0] at h
      simp [setKey, h0, ih h]

theorem hasKey_of_mem {α : Type} {l : List (String × α)} {k : String} {v : α}
    (h : (k, v) ∈ l) : hasKey k l = true := by
  induction l with
  | nil => simp at h
  | cons p t ih =>
    obtain ⟨k', w⟩ := p
    rcases List.mem_cons.mp h with h0 | h0
    · cases h0
      simp [hasKey, lookupKey]
    · by_cases h1 : k' = k
      · simp [hasKey, lookupKey, h1]
      · simpa [hasKey, lookupKey, h1] using ih h0

theorem hasKey_eq_false {α : Type} {l : List (String × α)} {k : String}
    (h : k ∉ l.map Prod.fst) : hasKey k l = false := by
  induction l with
  | nil => rfl
  | cons p t ih =>
    obtain ⟨k', v⟩ := p
    simp only [List.map_cons, List.mem_cons] at h
    push_neg at h
    simpa [hasKey, lookupKey, Ne.symm h.1] using ih h.2

theorem lookupKey_of_mem_nodup {α : Type} {l : List (String × α)} {k : String} {v : α}
    (hnd : (l.map Prod.fst).Nodup) (h : (k, v) ∈ l) : lookupKey k l = some v := by
  induction l with
  | nil => simp at h
  | cons p t ih =>
    obtain ⟨k', w⟩ := p
    simp only [List.map_cons, List.nodup_cons] at hnd
    rcases List.mem_cons.mp h with h0 | h0
    · cases h0
      simp [lookupKey]
    · have hk : k' ≠ k := by
        intro hh
        exact hnd.1 (hh ▸ (List.mem_map.mpr ⟨(k, v), h0, rfl⟩))
      simp [lookupKey, hk, ih hnd.2 h0]

theorem map_eq_self_of_fix {α : Type} (l : List α) (F : α → α)
    (h : ∀ p ∈ l, F p = p) : l.map F = l := by
  induction l with
  | nil => rfl
  | cons p t ih =>
    simp only [List.map_cons, h p (List.mem_cons_self p t),
      ih (fun q hq => h q (List.mem_cons_of_mem p hq))]

/-! ## Merge lemmas -/

/-- Every entry of `{ ...e, ...s }` already carries the value another spread
of `s` would assign to its key (uniqueness of `s`'s keys required for the
entries contributed by `s` itself). -/
theorem spreadMerge_entry_fix {e s : List (String × JValue)}
    (hnd : (s.map Prod.fst).Nodup) {p : String × JValue} (hp : p ∈ spreadMerge e s) :
    (lookupKey p.1 s).getD p.2 = p.2 := by
  rcases List.mem_append.mp hp with hm | hm
  · rcases List.mem_map.mp hm with ⟨q, _, rfl⟩
    cases hl : lookupKey q.1 s <;> simp [hl]
  · have hs : p ∈ s := (List.mem_filter.mp hm).1
    rw [lookupKey_of_mem_nodup hnd (by exact hs)]
    rfl

/-- Spreading the same (duplicate-free) record twice is the same as
spreading it once: `{ ...{ ...e, ...s }, ...s } = { ...e, ...s }`. -/
theorem spreadMerge_idem (e s : List (String × JValue))
    (hnd : (s.map Prod.fst).Nodup) :
    spreadMerge (spreadMerge e s) s = spreadMerge e s := by
  have hdef : spreadMerge (spreadMerge e s) s =
      (spreadMerge e s).map (fun p => (p.1, (lookupKey p.1 s).getD p.2)) ++
        s.filter (fun p => ! hasKey p.1 (spreadMerge e s)) := rfl
  have h1 : (spreadMerge e s).map (fun p => (p.1, (lookupKey p.1 s).getD p.2)) =
      spreadMerge e s :=
    map_eq_self_of_fix _ _ (fun p hp => by
      rw [spreadMerge_entry_fix hnd hp])
  have h2 : s.filter (fun p => ! hasKey p.1 (spreadMerge e s)) = [] := by
    rw [List.filter_eq_nil_iff]
    intro p hp
    have hmem : hasKey p.1 s = true := hasKey_of_mem (show (p.1, p.2) ∈ s from hp)
    have : hasKey p.1 (spreadMerge e s) = true := by
      unfold hasKey at hmem ⊢
      rw [lookupKey_spreadMerge]
      cases hs : lookupKey p.1 s
      · rw [hs] at hmem
        simp at hmem
      · simp [hs]
    simp [this]
  rw [hdef, h1, h2, List.append_nil]

/-- Usernames whose key does not occur in the processed batch entries are
untouched by the merge loop. -/
theorem lookupKey_foldl_not_mem (batch acc : List (String × JValue))
    (u : String) (h : hasKey u batch = false) :
    lookupKey u (List.foldl mergeStep acc batch) = lookupKey u acc := by
  induction batch generalizing acc with
  | nil => rfl
  | cons p t ih =>
    obtain ⟨k, r⟩ := p
    have hk : k ≠ u := by
      intro hh
      subst hh
      simp [hasKey, lookupKey] at h
    have ht : hasKey u t = false := by
      simpa [hasKey, lookupKey, hk] using h
    rw [List.foldl_cons, ih _ ht]
    exact lookupKey_setKey_ne acc k u _ (Ne.symm hk)

/-- The merged value of a username occurring in the batch: its existing
truthy-object properties spread-merged with the incoming entry's
properties. -/
theorem lookupKey_mergePlayers_mem (cur incoming : List (String × JValue))
    (hnd : (incoming.map Prod.fst).Nodup) (u : String) (r : JValue)
    (hm : (u, r) ∈ incoming) :
    lookupKey u (mergePlayers cur incoming) =
      some (JValue.jobj (spreadMerge (jsOrProps (lookupKey u cur)) (jsSpreadProps r))) := by
  induction incoming generalizing cur with
  | nil => simp at hm
  | cons p t ih =>
    obtain ⟨k, r'⟩ := p
    simp only [List.map_cons, List.nodup_cons] at hnd
    rcases List.mem_cons.mp hm with h0 | h0
    · injection h0 with h1 h2
      subst h1
      subst h2
      have hkt : hasKey u t = false := hasKey_eq_false hnd.1
      rw [mergePlayers, List.foldl_cons, lookupKey_foldl_not_mem t _ u hkt]
      simp [mergeStep]
    · have hk : k ≠ u := fun hh => hnd.1 (hh ▸ List.mem_map.mpr ⟨(u, r), h0, rfl⟩)
      have heq : lookupKey u (mergeStep cur (k, r')) = lookupKey u cur :=
        lookupKey_setKey_ne cur k u _ (Ne.symm hk)
      have := ih (mergeStep cur (k, r')) hnd.2 h0
      rw [heq] at this
      rw [mergePlayers, List.foldl_cons]
      exact this

/-! ## Nodup-key preservation -/

theorem keys_setKey {α : Type} (l : List (String × α)) (k : String) (v : α) :
    (setKey l k v).map Prod.fst =
      if hasKey k l then l.map Prod.fst else l.map Prod.fst ++ [k] := by
  induction l with
  | nil => simp [setKey, hasKey, lookupKey]
  | cons p t ih =>
    obtain ⟨k', w⟩ := p
    by_cases h : k' = k
    · subst h
      simp [setKey, hasKey, lookupKey]
    · simp only [setKey, hasKey, lookupKey, h, if_false, List.map_cons, ih]
      by_cases hc : (lookupKey k t).isSome <;> simp [hasKey, hc]

theorem nodup_keys_setKey {α : Type} (l : List (String × α)) (k : String) (v : α)
    (h : (l.map Prod.fst).Nodup) : ((setKey l k v).map Prod.fst).Nodup := by
  rw [keys_setKey]
  by_cases hk : hasKey k l
  · rw [if_pos hk]
    exact h
  · have hnm : k ∉ l.map Prod.fst := by
      intro hmem
      rcases List.mem_map.mp hmem with ⟨p, hp, rfl⟩
      exact hk (by simpa using hasKey_of_mem (show (p.1, p.2) ∈ l from hp))
    rw [if_neg hk, List.nodup_append]
    exact ⟨h, List.nodup_singleton k,
      fun a ha hb => hnm ((List.mem_singleton.mp hb) ▸ ha)⟩

theorem nodup_keys_mergePlayers (cur incoming : List (String × JValue))
    (h : (cur.map Prod.fst).Nodup) :
    ((mergePlayers cur incoming).map Prod.fst).Nodup := by
  induction incoming generalizing cur with
  | nil => exact h
  | cons p t ih =>
    rw [mergePlayers, List.foldl_cons]
    exact ih (mergeStep cur p) (nodup_keys_setKey cur p.1 _ h)

/-! ## History and scheduler lemmas -/

theorem appendAll_append_one (ts : List Sample) (s : Sample) :
    appendAll (ts ++ [s]) = appendSample (appendAll ts) s := by
  simp [appendAll, List.foldl_append]

/-- The capped log after any sequence of appends is exactly the suffix of
the input of length `min N CAP`. -/
theorem appendAll_eq (ss : List Sample) :
    appendAll ss = ss.drop (ss.length - CAP) := by
  induction ss using List.reverseRecOn with
  | nil => rfl
  | append_singleton ts s ih =>
    rw [appendAll_append_one, ih, appendSample]
    have hlen : (ts.drop (ts.length - CAP) ++ [s]).length =
        ts.length - (ts.length - CAP) + 1 := by
      simp
    by_cases hc : CAP ≤ ts.length
    · have hgt : (ts.drop (ts.length - CAP) ++ [s]).length > CAP := by
        rw [hlen]
        omega
      rw [if_pos hgt, hlen]
      have h1 : ts.drop (ts.length - CAP) ++ [s] = (ts ++ [s]).drop (ts.length - CAP) :=
        (List.drop_append_of_le_length (by omega)).symm
      rw [h1, List.drop_drop]
      have h2 : ts.length - CAP + (ts.length - (ts.length - CAP) + 1 - CAP) =
          (ts ++ [s]).length - CAP := by
        simp
        omega
      rw [h2]
    · have hngt : ¬ (ts.drop (ts.length - CAP) ++ [s]).length > CAP := by
        rw [hlen]
        omega
      rw [if_neg hngt]
      have h0 : ts.length - CAP = 0 := by omega
      have h0' : (ts ++ [s]).length - CAP = 0 := by
        simp
        omega
      rw [h0, h0', List.drop_zero, List.drop_zero]

theorem appendAll_length (ss : List Sample) :
    (appendAll ss).length = min ss.length CAP := by
  rw [appendAll_eq, List.length_drop]
  omega

/-- The scheduler run is the capped-append run over the samples its ticks
build. -/
theorem runScheduler_eq (ticks : List (Nat × Except ProbeErr ProbeResult)) :
    runScheduler ticks = appendAll (ticks.map (fun t => buildSample t.1 t.2)) := by
  rw [runScheduler, appendAll, List.foldl_map]
  rfl

/-! ## Claim C1 -/

/-- C1:: for every merge of a batch into the current players map and
every username present in the batch, the merged record is the existing
record (empty when absent or falsy) with exactly the fields present in the
incoming record overwritten by the incoming values: per field, the
incoming value wins and all other fields keep their existing values (so an
incoming sequence-valued field such as `sessions` replaces the existing
sequence wholesale); every username not present in the batch keeps its
record unchanged. -/
theorem C1_merge_field_overwrite (cur incoming : List (String × JValue))
    (hnd : (incoming.map Prod.fst).Nodup) :
    (∀ u r, (u, r) ∈ incoming →
      lookupKey u (mergePlayers cur incoming) =
        some (JValue.jobj (spreadMerge (jsOrProps (lookupKey u cur)) (jsSpreadProps r))) ∧
      ∀ f, lookupKey f (spreadMerge (jsOrProps (lookupKey u cur)) (jsSpreadProps r)) =
        (lookupKey f (jsSpreadProps r) <|> lookupKey f (jsOrProps (lookupKey u cur)))) ∧
    (∀ u, hasKey u incoming = false →
      lookupKey u (mergePlayers cur incoming) = lookupKey u cur) :=
  ⟨fun u r hm =>
    ⟨lookupKey_mergePlayers_mem cur incoming hnd u r hm,
     fun f => lookupKey_spreadMerge f _ _⟩,
   fun u hu => lookupKey_foldl_not_mem incoming cur u hu⟩

/-- Witness for C1 at the spec's own examples: existing
`alice ↦ {kills: 5, deaths: 2, sessions: [1]}`, `bob ↦ {kills: 3}`,
incoming batch `alice ↦ {kills: 7, sessions: [2]}`: alice's merged record
is `{kills: 7, deaths: 2, sessions: [2]}` (kills overwritten, deaths kept,
sessions replaced, not concatenated) and bob's record is untouched. -/
theorem C1_merge_field_overwrite_witness :
    ((([("alice", JValue.jobj [("kills", JValue.jnum 7), ("sessions", JValue.jarr [JValue.jnum 2])])] :
        List (String × JValue)).map Prod.fst).Nodup) ∧
    lookupKey "alice"
        (mergePlayers
          [("alice", JValue.jobj
              [("kills", JValue.jnum 5), ("deaths", JValue.jnum 2),
               ("sessions", JValue.jarr [JValue.jnum 1])]),
           ("bob", JValue.jobj [("kills", JValue.jnum 3)])]
          [("alice", JValue.jobj
              [("kills", JValue.jnum 7), ("sessions", JValue.jarr [JValue.jnum 2])])]) =
      some (JValue.jobj
        [("kills", JValue.jnum 7), ("deaths", JValue.jnum 2),
         ("sessions", JValue.jarr [JValue.jnum 2])]) ∧
    lookupKey "bob"
        (mergePlayers
          [("alice", JValue.jobj
              [("kills", JValue.jnum 5), ("deaths", JValue.jnum 2),
               ("sessions", JValue.jarr [JValue.jnum 1])]),
           ("bob", JValue.jobj [("kills", JValue.jnum 3)])]
          [("alice", JValue.jobj
              [("kills", JValue.jnum 7), ("sessions", JValue.jarr [JValue.jnum 2])])]) =
      some (JValue.jobj [("kills", JValue.jnum 3)]) := by
  refine ⟨by decide, ?_, ?_⟩
  · have h := (C1_merge_field_overwrite
      [("alice", JValue.jobj
          [("kills", JValue.jnum 5), ("deaths", JValue.jnum 2),
           ("sessions", JValue.jarr [JValue.jnum 1])]),
       ("bob", JValue.jobj [("kills", JValue.jnum 3)])]
      [("alice", JValue.jobj
          [("kills", JValue.jnum 7), ("sessions", JValue.jarr [JValue.jnum 2])])]
      (by decide)).1 "alice"
      (JValue.jobj [("kills", JValue.jnum 7), ("sessions", JValue.jarr [JValue.jnum 2])])
      (List.mem_singleton.mpr rfl)
    exact h.1.trans (by rfl)
  · have h := (C1_merge_field_overwrite
      [("alice", JValue.jobj
          [("kills", JValue.jnum 5), ("deaths", JValue.jnum 2),
           ("sessions", JValue.jarr [JValue.jnum 1])]),
       ("bob", JValue.jobj [("kills", JValue.jnum 3)])]
      [("alice", JValue.jobj
          [("kills", JValue.jnum 7), ("sessions", JValue.jarr [JValue.jnum 2])])]
      (by decide)).2 "bob" (by decide)
    exact h.trans (by rfl)

/-! ## Claim C7 -/

/-- C7:: merge idempotence: merging the same batch twice with no
intervening change yields the same players map as merging it once (the
aggregate therefore agrees up to `updatedAt`). The hypotheses record that
JavaScript objects never carry duplicate keys: the batch's usernames are
pairwise distinct, and so are the property names of each incoming
record. -/
theorem C7_merge_idempotent (cur incoming : List (String × JValue))
    (hnd : (incoming.map Prod.fst).Nodup)
    (hrec : ∀ p ∈ incoming, ((jsSpreadProps p.2).map Prod.fst).Nodup) :
    mergePlayers (mergePlayers cur incoming) incoming = mergePlayers cur incoming := by
  induction incoming generalizing cur with
  | nil => rfl
  | cons p t ih =>
    obtain ⟨u, r⟩ := p
    simp only [List.map_cons, List.nodup_cons] at hnd
    have hkt : hasKey u t = false := hasKey_eq_false hnd.1
    have hS : ((jsSpreadProps r).map Prod.fst).Nodup :=
      hrec (u, r) (List.mem_cons_self _ _)
    simp only [mergePlayers, List.foldl_cons] at ih ⊢
    have hlook : lookupKey u (List.foldl mergeStep (mergeStep cur (u, r)) t) =
        some (JValue.jobj
          (spreadMerge (jsOrProps (lookupKey u cur)) (jsSpreadProps r))) := by
      rw [lookupKey_foldl_not_mem t _ u hkt]
      simp [mergeStep]
    have hstep : mergeStep (List.foldl mergeStep (mergeStep cur (u, r)) t) (u, r) =
        List.foldl mergeStep (mergeStep cur (u, r)) t := by
      rw [mergeStep]
      have hor : jsOrProps (lookupKey u (List.foldl mergeStep (mergeStep cur (u, r)) t)) =
          spreadMerge (jsOrProps (lookupKey u cur)) (jsSpreadProps r) := by
        rw [hlook]
        rfl
      rw [show ((u, r).1 : String) = u from rfl, hor, spreadMerge_idem _ _ hS]
      exact setKey_eq_of_lookup _ _ _ hlook
    rw [hstep]
    exact ih (mergeStep cur (u, r)) hnd.2
      (fun q hq => hrec q (List.mem_cons_of_mem _ hq))

/-- Witness for C7: merging the batch `alice ↦ {kills: 7}` twice into
`{alice ↦ {kills: 5, deaths: 2}}` equals merging it once. -/
theorem C7_merge_idempotent_witness :
    ((([("alice", JValue.jobj [("kills", JValue.jnum 7)])] :
        List (String × JValue)).map Prod.fst).Nodup) ∧
    (∀ p ∈ ([("alice", JValue.jobj [("kills", JValue.jnum 7)])] :
        List (String × JValue)), ((jsSpreadProps p.2).map Prod.fst).Nodup) ∧
    mergePlayers
        (mergePlayers
          [("alice", JValue.jobj [("kills", JValue.jnum 5), ("deaths", JValue.jnum 2)])]
          [("alice", JValue.jobj [("kills", JValue.jnum 7)])])
        [("alice", JValue.jobj [("kills", JValue.jnum 7)])] =
      mergePlayers
        [("alice", JValue.jobj [("kills", JValue.jnum 5), ("deaths", JValue.jnum 2)])]
        [("alice", JValue.jobj [("kills", JValue.jnum 7)])] :=
  ⟨by decide, by decide,
   C7_merge_idempotent
     [("alice", JValue.jobj [("kills", JValue.jnum 5), ("deaths", JValue.jnum 2)])]
     [("alice", JValue.jobj [("kills", JValue.jnum 7)])]
     (by decide) (by decide)⟩

/-! ## Claim C2 -/

/-- C2:: after any sequence of `N` appends to the initially empty
history, the persisted log is exactly the suffix of the appended samples
of length `min N 15000` — i.e. the most recent `min N 15000` samples in
their original append order, so for `N > 15000` exactly the most recent
15000 remain (oldest excess dropped) and `len(samples) ≤ 15000` holds
after every append. -/
theorem C2_history_sliding_window (ss : List Sample) :
    appendAll ss = ss.drop (ss.length - CAP) ∧
    (appendAll ss).length = min ss.length CAP ∧
    (appendAll ss).length ≤ CAP :=
  ⟨appendAll_eq ss, appendAll_length ss, by rw [appendAll_length]; omega⟩

/-! ## Claim C3 -/

/-- C3 counterexample: the sample a failed tick builds
(src/server.js:194) is `{ at, online: false }` with the `playersOnline`
and `playersMax` properties absent — not `playersOnline: 0,
playersMax: 0` as the claim states. -/
theorem C3_failure_sample_cex :
    buildSample 7 (Except.error ProbeErr.timeout) ≠
      { takenAt := 7, online := false, playersOnline := some 0,
        playersMax := some 0 } := by
  decide

/-- C3 amended: on a failed probe the tick builds and appends
`{ at: now, online: false }` — the player-count fields are omitted rather
than set to 0 — the failure is swallowed inside the tick (the run is a
total fold, so a failing tick never prevents the following ticks from
running), and every tick of the run, before and after the failure,
appends exactly one sample. -/
theorem C3_failure_sample_amended (now : Nat) (e : ProbeErr)
    (pre post : List (Nat × Except ProbeErr ProbeResult)) :
    buildSample now (Except.error e) =
      { takenAt := now, online := false, playersOnline := none,
        playersMax := none } ∧
    runScheduler (pre ++ (now, Except.error e) :: post) =
      List.foldl tickOnce
        (appendSample (runScheduler pre) (buildSample now (Except.error e))) post ∧
    (runScheduler (pre ++ (now, Except.error e) :: post)).length =
      min (pre.length + 1 + post.length) CAP := by
  refine ⟨rfl, ?_, ?_⟩
  · rw [runScheduler, List.foldl_append, List.foldl_cons]
    rfl
  · rw [runScheduler_eq, appendAll_length, List.length_map]
    simp
    omega

/-! ## Claim C4 -/

/-- C4 counterexample: with a 1000 ms interval and 5000 ms
probe-then-append work (the probe timeout alone is 5000 ms), ticks 0 and 1
are both in flight at t = 2000 ms: `setInterval` does not serialize,
skip or defer ticks. -/
theorem C4_tick_overlap_cex :
    inFlight ⟨1000, fun _ => 5000⟩ 0 2000 ∧
    inFlight ⟨1000, fun _ => 5000⟩ 1 2000 ∧
    (0 : Nat) ≠ 1 := by
  refine ⟨⟨?_, ?_⟩, ⟨?_, ?_⟩, ?_⟩ <;> norm_num [inFlight, tickStart]

/-- C4 amended: `setInterval` starts tick `i+1` exactly
`intervalMs` after tick `i`, independently of any in-flight work, so
whenever a tick's probe-then-append takes longer than the interval, that
tick and the next one are in flight at the same time. -/
theorem C4_ticks_overlap (tt : TickTiming) (i : Nat)
    (h1 : tt.intervalMs < tt.dur i) (h2 : 0 < tt.dur (i + 1)) :
    tickStart tt (i + 1) = tickStart tt i + tt.intervalMs ∧
    inFlight tt i (tickStart tt (i + 1)) ∧
    inFlight tt (i + 1) (tickStart tt (i + 1)) := by
  have hstep : tickStart tt (i + 1) = tickStart tt i + tt.intervalMs := by
    simp only [tickStart]
    rw [Nat.succ_mul]
  refine ⟨hstep, ⟨?_, ?_⟩, ⟨Nat.le_refl _, ?_⟩⟩
  · rw [hstep]
    exact Nat.le_add_right _ _
  · rw [hstep]
    omega
  · omega

/-- Witness for C4 (amended) at interval 1000 ms, probe duration 5000 ms,
tick 0. -/
theorem C4_ticks_overlap_witness :
    ((⟨1000, fun _ => 5000⟩ : TickTiming).intervalMs <
        (⟨1000, fun _ => 5000⟩ : TickTiming).dur 0 ∧
      0 < (⟨1000, fun _ => 5000⟩ : TickTiming).dur 1) ∧
    (tickStart ⟨1000, fun _ => 5000⟩ 1 =
        tickStart ⟨1000, fun _ => 5000⟩ 0 +
          (⟨1000, fun _ => 5000⟩ : TickTiming).intervalMs ∧
      inFlight ⟨1000, fun _ => 5000⟩ 0 (tickStart ⟨1000, fun _ => 5000⟩ 1) ∧
      inFlight ⟨1000, fun _ => 5000⟩ 1 (tickStart ⟨1000, fun _ => 5000⟩ 1)) :=
  ⟨⟨by norm_num, by norm_num⟩,
   C4_ticks_overlap ⟨1000, fun _ => 5000⟩ 0 (by norm_num) (by norm_num)⟩

/-! ## Claim C5 -/

/-- C5:: malformed serialized input fails with the parse error — for
every persisted state, before any schema validation can run (no parsed
value exists) — a well-formed payload whose top-level shape is not an
object with an object-valued `players` field fails with the schema error
naming the expected shape `\x7b players: \x7b ... \x7d \x7d`, and in both
failure cases the returned persisted aggregate is the input aggregate
unchanged: the read-modify-write is never applied. -/
theorem C5_import_errors (st : Aggregate) (now : Nat) :
    importStep none st now = (ImportResp.parseError, st) ∧
    ∀ v, schemaOk v = false →
      importStep (some v) st now = (ImportResp.schemaError schemaMsg, st) := by
  refine ⟨rfl, fun v hv => ?_⟩
  simp [importStep, hv]

/-- Witness for C5 at the spec's example: `{"notplayers": {}}` is rejected
by the schema check, non-JSON text (parse failure) is rejected by the
parse check, and the aggregate `bob ↦ {}` is unchanged in both cases. -/
theorem C5_import_errors_witness :
    schemaOk (JValue.jobj [("notplayers", JValue.jobj [])]) = false ∧
    importStep none ⟨[("bob", JValue.jobj [])], 3⟩ 9 =
      (ImportResp.parseError, ⟨[("bob", JValue.jobj [])], 3⟩) ∧
    importStep (some (JValue.jobj [("notplayers", JValue.jobj [])]))
        ⟨[("bob", JValue.jobj [])], 3⟩ 9 =
      (ImportResp.schemaError schemaMsg, ⟨[("bob", JValue.jobj [])], 3⟩) :=
  ⟨rfl, (C5_import_errors ⟨[("bob", JValue.jobj [])], 3⟩ 9).1,
   (C5_import_errors ⟨[("bob", JValue.jobj [])], 3⟩ 9).2
     (JValue.jobj [("notplayers", JValue.jobj [])]) rfl⟩

/-! ## Claim C6 -/

/-- C6 code-bug evidence: `appendPingSample` rewrites
ping-history.json with a plain `fsp.writeFile` (no
write-to-temp-then-rename). `writeFile` truncates the file before
writing, so a write that fails having written nothing (e.g. ENOSPC)
leaves the file empty: the prior persisted sample is lost and a
partially-written state remains, contradicting the claim's "prior
persisted HistoryLog state is left unchanged". The parts the code does
satisfy also hold: the error is only logged (the call returns, with
`false` recording the failed write), and a successful write applies
exactly the capped append. -/
theorem C6_append_write_failure :
    appendPingSampleFS
        [{ takenAt := 1, online := true, playersOnline := some 2,
           playersMax := some 10 }]
        { takenAt := 2, online := false } (WriteOutcome.failAfter 0) =
      ("", false) ∧
    serializeLog
        [{ takenAt := 1, online := true, playersOnline := some 2,
           playersMax := some 10 }] ≠ "" ∧
    appendPingSampleFS
        [{ takenAt := 1, online := true, playersOnline := some 2,
           playersMax := some 10 }]
        { takenAt := 2, online := false } WriteOutcome.ok =
      (serializeLog
          (appendSample
            [{ takenAt := 1, online := true, playersOnline := some 2,
               playersMax := some 10 }]
            { takenAt := 2, online := false }), true) := by
  refine ⟨rfl, ?_, rfl⟩
  decide

/-! ## Claim C8 -/

/-- C8:: when `pingIntervalSec ≤ 0` (in particular 0) at scheduler
start, the start returns via the disabled branch — which is distinct from
the error (`failed`) branch — and no sample is ever appended for the
lifetime of the run. -/
theorem C8_scheduler_disabled (cfg : Config) (h : cfg.pingIntervalSec ≤ 0) :
    startSchedulerIfConfigured (some cfg) = SchedStart.disabled ∧
    SchedStart.disabled ≠ SchedStart.failed ∧
    ∀ ticks, schedulerSamples (some cfg) ticks = [] := by
  have hs : startSchedulerIfConfigured (some cfg) = SchedStart.disabled := by
    simp [startSchedulerIfConfigured, h]
  refine ⟨hs, by decide, fun ticks => ?_⟩
  rw [schedulerSamples, hs]

/-- Witness for C8 at the default config `pingIntervalSec = 0`
(PING_INTERVAL_SEC unset). -/
theorem C8_scheduler_disabled_witness :
    ((⟨"localhost", 25565, 0⟩ : Config).pingIntervalSec ≤ 0) ∧
    (startSchedulerIfConfigured (some ⟨"localhost", 25565, 0⟩) =
        SchedStart.disabled ∧
      SchedStart.disabled ≠ SchedStart.failed ∧
      ∀ ticks, schedulerSamples (some ⟨"localhost", 25565, 0⟩) ticks = []) :=
  ⟨by norm_num, C8_scheduler_disabled ⟨"localhost", 25565, 0⟩ (by norm_num)⟩

/-! ## Claim C9 -/

/-- C9:: a successful import responds with
`totalPlayers = Object.keys(merged.players).length`, which equals the
number of distinct usernames of the whole merged aggregate (current and
batch usernames together, not just the batch), and with the aggregate's
new `updatedAt`, the single timestamp taken during the merge and stored
in the persisted aggregate. -/
theorem C9_import_summary (v : JValue) (cur : Aggregate) (now : Nat)
    (hs : schemaOk v = true) (hnd : (cur.players.map Prod.fst).Nodup) :
    importStep (some v) cur now =
      (ImportResp.ok now
         (mergePlayers cur.players (jsEntries ((getPlayers v).getD .jnull))).length,
       { players := mergePlayers cur.players (jsEntries ((getPlayers v).getD .jnull)),
         updatedAt := now }) ∧
    (mergePlayers cur.players (jsEntries ((getPlayers v).getD .jnull))).length =
      ((mergePlayers cur.players
          (jsEntries ((getPlayers v).getD .jnull))).map Prod.fst).dedup.length := by
  constructor
  · simp [importStep, hs]
  · have h := nodup_keys_mergePlayers cur.players
      (jsEntries ((getPlayers v).getD .jnull)) hnd
    rw [List.Nodup.dedup h, List.length_map]

/-- Witness for C9: importing `{ players: { alice: { kills: 7 } } }` into
the aggregate `{ bob ↦ {} }` reports `totalPlayers = 2` (bob and alice)
and `updatedAt = 9`, equal to the stored aggregate's `updatedAt`. -/
theorem C9_import_summary_witness :
    schemaOk (JValue.jobj
        [("players", JValue.jobj [("alice", JValue.jobj [("kills", JValue.jnum 7)])])]) =
      true ∧
    (([("bob", JValue.jobj [])] : List (String × JValue)).map Prod.fst).Nodup ∧
    importStep
        (some (JValue.jobj
          [("players", JValue.jobj [("alice", JValue.jobj [("kills", JValue.jnum 7)])])]))
        ⟨[("bob", JValue.jobj [])], 3⟩ 9 =
      (ImportResp.ok 9 2,
       ⟨[("bob", JValue.jobj []),
         ("alice", JValue.jobj [("kills", JValue.jnum 7)])], 9⟩) := by
  refine ⟨rfl, by decide, ?_⟩
  exact (C9_import_summary
    (JValue.jobj
      [("players", JValue.jobj [("alice", JValue.jobj [("kills", JValue.jnum 7)])])])
    ⟨[("bob", JValue.jobj [])], 3⟩ 9 rfl (by decide)).1.trans (by rfl)

/-! ## Claim C10 -/

/-- C10 implicit claim: the schema check accepts a payload whose
top-level `players` value is a JSON array (`typeof [] === 'object'` and
`[]` is truthy), and the merge then treats the array indices "0", "1" as
usernames: `{ players: [r0, r1] }` is imported with merged records stored
under "0" and "1". -/
theorem C10_array_players (r0 r1 : JValue) (cur : Aggregate) (now : Nat) :
    schemaOk (JValue.jobj [("players", JValue.jarr [r0, r1])]) = true ∧
    importStep (some (JValue.jobj [("players", JValue.jarr [r0, r1])])) cur now =
      (ImportResp.ok now (mergePlayers cur.players [("0", r0), ("1", r1)]).length,
       { players := mergePlayers cur.players [("0", r0), ("1", r1)],
         updatedAt := now }) ∧
    lookupKey "0" (mergePlayers cur.players [("0", r0), ("1", r1)]) =
      some (JValue.jobj
        (spreadMerge (jsOrProps (lookupKey "0" cur.players)) (jsSpreadProps r0))) ∧
    lookupKey "1" (mergePlayers cur.players [("0", r0), ("1", r1)]) =
      some (JValue.jobj
        (spreadMerge (jsOrProps (lookupKey "1" cur.players)) (jsSpreadProps r1))) := by
  have hent : jsEntries (JValue.jarr [r0, r1]) = [("0", r0), ("1", r1)] := by
    have h1 : jsEntries (JValue.jarr [r0, r1]) =
        [(toString (0 : Nat), r0), (toString (1 : Nat), r1)] := rfl
    have h2 : ([(toString (0 : Nat), r0), (toString (1 : Nat), r1)] :
        List (String × JValue)) = [("0", r0), ("1", r1)] := rfl
    rw [h1, h2]
  refine ⟨rfl, ?_, ?_, ?_⟩
  · have hred : importStep (some (JValue.jobj [("players", JValue.jarr [r0, r1])])) cur now =
        (ImportResp.ok now
           (mergePlayers cur.players (jsEntries (JValue.jarr [r0, r1]))).length,
         { players := mergePlayers cur.players (jsEntries (JValue.jarr [r0, r1])),
           updatedAt := now }) := rfl
    rw [hred, hent]
  · exact lookupKey_mergePlayers_mem cur.players [("0", r0), ("1", r1)]
      (by simp) "0" r0 (by simp)
  · exact lookupKey_mergePlayers_mem cur.players [("0", r0), ("1", r1)]
      (by simp) "1" r1 (by simp)

end Carte
